import Mathlib

/-!
Verification of the steppie mesh-extraction and bounding-shell engine.

The development shallowly embeds the core functions of `occserver.py`
(`extract_mesh_data`, `calculate_face_area_accurate`, `calculate_face_center`,
`calculate_face_normal_accurate`, `calculate_face_bounds`, `calculate_normals`)
and of `boundingBox.py` (`create_bounding_box_stl`).

Modelling conventions:
* 3-D points are `Vec3`, a record of three rationals; float arithmetic is
  modelled exactly over `ℚ`.
* `math.sqrt` / `** 0.5` is modelled by `rsqrt`, which is exact on
  perfect-square rationals (every concrete input inspected below has
  perfect-square norms) and whose sign agrees with the real square root on
  every nonnegative input, so all branch conditions of the source are
  modelled faithfully.
* A value produced by the tessellation adapter that the source reads inside a
  `try` block is modelled as an `Option`: `none` stands for the read raising,
  which triggers the source's per-face `except` handler.
* Python list indexing is modelled with `List.getD`; the source raises on an
  out-of-range index, so theorems about functions that index are stated for
  in-range inputs where the two semantics agree.
-/

structure Vec3 where
  x : ℚ
  y : ℚ
  z : ℚ
deriving DecidableEq

def vzero : Vec3 := ⟨0, 0, 0⟩

def vadd (a b : Vec3) : Vec3 := ⟨a.x + b.x, a.y + b.y, a.z + b.z⟩

def vsub (a b : Vec3) : Vec3 := ⟨a.x - b.x, a.y - b.y, a.z - b.z⟩

def vdiv (a : Vec3) (s : ℚ) : Vec3 := ⟨a.x / s, a.y / s, a.z / s⟩

def vscale (s : ℚ) (a : Vec3) : Vec3 := ⟨s * a.x, s * a.y, s * a.z⟩

/-- Componentwise cross product, exactly as the source spells it out:
`[e1[1]*e2[2] - e1[2]*e2[1], e1[2]*e2[0] - e1[0]*e2[2], e1[0]*e2[1] - e1[1]*e2[0]]`. -/
def cross (a b : Vec3) : Vec3 :=
  ⟨a.y * b.z - a.z * b.y, a.z * b.x - a.x * b.z, a.x * b.y - a.y * b.x⟩

/-- Squared Euclidean norm, the argument of the source's `** 0.5`. -/
def normSq (a : Vec3) : ℚ := a.x ^ 2 + a.y ^ 2 + a.z ^ 2

/-- Exact model of `math.sqrt`: on a perfect-square rational it returns the
exact root, and for every `0 ≤ q` it is positive exactly when `q` is, so the
source's `length > 0` tests are modelled faithfully on all inputs. -/
def rsqrt (q : ℚ) : ℚ := (Nat.sqrt q.num.toNat : ℚ) / (Nat.sqrt q.den : ℚ)

def vsum (l : List Vec3) : Vec3 := l.foldr vadd vzero

/-- Global triangle index triple: the source stores `vertex_count + n - 1` as a
Python integer, which can be negative when the adapter reports a node index of
zero, so the components are modelled as `ℤ`. -/
abbrev GTri : Type := ℤ × ℤ × ℤ

/-- Translation of `calculate_face_area_accurate` (occserver.py lines 206-228).
Note that the loop variable is never used: every iteration reads
`vertices[0]`, `vertices[1]`, `vertices[2]`, so each triangle contributes the
area of the triangle formed by the face's first three vertices. -/
def calculate_face_area_accurate (vertices : List Vec3) (triangles : List GTri) : ℚ :=
  triangles.foldl (fun total _tri =>
    if 3 ≤ vertices.length then
      let v1 := if 0 < vertices.length then vertices.getD 0 vzero else vzero
      let v2 := if 1 < vertices.length then vertices.getD 1 vzero else vzero
      let v3 := if 2 < vertices.length then vertices.getD 2 vzero else vzero
      let edge1 := vsub v2 v1
      let edge2 := vsub v3 v1
      let c := cross edge1 edge2
      let magnitude := rsqrt (normSq c)
      total + magnitude * (1 / 2)
    else total) 0

/-- Translation of `calculate_face_center` (occserver.py lines 230-242):
an empty vertex list short-circuits to the origin, otherwise the componentwise
running sums are divided by the vertex count. -/
def calculate_face_center (vertices : List Vec3) : Vec3 :=
  if vertices = [] then ⟨0, 0, 0⟩
  else
    let c := vertices.foldl vadd ⟨0, 0, 0⟩
    ⟨c.x / vertices.length, c.y / vertices.length, c.z / vertices.length⟩

/-- Translation of `calculate_face_normal_accurate` (occserver.py lines
244-268). The `triangles` parameter is never read: the two edges are built
from `vertices[0]`, `vertices[1]`, `vertices[2]`, and the fallback `[0,0,1]`
is produced when fewer than three vertices exist or the cross product has
length zero. -/
def calculate_face_normal_accurate (vertices : List Vec3) (triangles : List GTri) : Vec3 :=
  if vertices.length < 3 then ⟨0, 0, 1⟩
  else
    let v1 := vertices.getD 0 vzero
    let v2 := if 1 < vertices.length then vertices.getD 1 vzero else vertices.getD 0 vzero
    let v3 := if 2 < vertices.length then vertices.getD 2 vzero else vertices.getD 0 vzero
    let edge1 := vsub v2 v1
    let edge2 := vsub v3 v1
    let n := cross edge1 edge2
    let length := rsqrt (normSq n)
    if 0 < length then vdiv n length else ⟨0, 0, 1⟩

/-- Translation of `calculate_face_bounds` (occserver.py lines 270-283).
The source folds componentwise `min`/`max` starting from `±inf`; over an exact
linear order that equals folding from the first vertex, and the empty case
returns zero bounds as in the source. -/
def calculate_face_bounds (vertices : List Vec3) : Vec3 × Vec3 :=
  match vertices with
  | [] => (vzero, vzero)
  | v :: rest =>
    (rest.foldl (fun m w => ⟨min m.x w.x, min m.y w.y, min m.z w.z⟩) v,
     rest.foldl (fun m w => ⟨max m.x w.x, max m.y w.y, max m.z w.z⟩) v)

/-- Per-triangle vector the accumulation loop of `calculate_normals` adds to
each of the triangle's three vertex slots: the edge cross product, divided by
its length when that is positive, left as-is (the zero vector, in exact
arithmetic) otherwise. -/
def triFaceNormal (vertices : List Vec3) (t : ℕ × ℕ × ℕ) : Vec3 :=
  let v1 := vertices.getD t.1 vzero
  let v2 := vertices.getD t.2.1 vzero
  let v3 := vertices.getD t.2.2 vzero
  let edge1 := vsub v2 v1
  let edge2 := vsub v3 v1
  let n := cross edge1 edge2
  let length := rsqrt (normSq n)
  if 0 < length then vdiv n length else n

/-- One `normals[idx][k] += normal[k]` update of the source; Python raises on
an out-of-range `idx`, the model drops the write (the claims below concern
in-range indices, where the two agree). -/
def addToIdx (normals : List Vec3) (idx : ℕ) (n : Vec3) : List Vec3 :=
  normals.set idx (vadd (normals.getD idx vzero) n)

/-- Accumulation loop of `calculate_normals`: for every triangle, add its
(possibly zero) unit normal to the slots of its three vertex indices, in
order. -/
def accumLoop (vertices : List Vec3) : List (ℕ × ℕ × ℕ) → List Vec3 → List Vec3
  | [], normals => normals
  | t :: rest, normals =>
    let n := triFaceNormal vertices t
    accumLoop vertices rest (addToIdx (addToIdx (addToIdx normals t.1 n) t.2.1 n) t.2.2 n)

/-- Final per-vertex normalization of `calculate_normals`: divide by the
length when positive, otherwise default to `[0,0,1]`. -/
def finalizeNormal (n : Vec3) : Vec3 :=
  let length := rsqrt (normSq n)
  if 0 < length then vdiv n length else ⟨0, 0, 1⟩

/-- Translation of `calculate_normals` (occserver.py lines 285-323): start
from one zero vector per vertex, run the accumulation loop over all triangles,
then normalize every slot. -/
def calculate_normals (vertices : List Vec3) (triangles : List (ℕ × ℕ × ℕ)) : List Vec3 :=
  (accumLoop vertices triangles (vertices.map fun _ => vzero)).map finalizeNormal

/-! ## Bounding shell builder (`boundingBox.py`) -/

structure BBox where
  xmin : ℚ
  xmax : ℚ
  ymin : ℚ
  ymax : ℚ
  zmin : ℚ
  zmax : ℚ
deriving DecidableEq

/-- A `cq.Workplane.box(l, w, h).translate((cx, cy, cz))` value: an axis-aligned
box of the given side lengths centered at the given point. -/
structure Box where
  cx : ℚ
  cy : ℚ
  cz : ℚ
  lx : ℚ
  ly : ℚ
  lz : ℚ
deriving DecidableEq

/-- Observable result of the shell builder: either the boolean difference
`outer.cut(inner)` or a plain solid box. -/
inductive ShellResult where
  | hollow (outer inner : Box)
  | solidBox (outer : Box)
deriving DecidableEq

/-- Translation of `create_bounding_box_stl` (boundingBox.py lines 3-49),
restricted to its geometric content (file I/O stripped): read the bounding
box, build the outer box over the full extents and the inner box inset by
`2 * wall_thickness` per axis, both centered at the AABB center, and return
their boolean difference. There is no validity check on the inner dimensions. -/
def create_bounding_box_stl (b : BBox) (wall_thickness : ℚ) : ShellResult :=
  let length := b.xmax - b.xmin
  let width := b.ymax - b.ymin
  let height := b.zmax - b.zmin
  let center_x := (b.xmin + b.xmax) / 2
  let center_y := (b.ymin + b.ymax) / 2
  let center_z := (b.zmin + b.zmax) / 2
  let outer_box : Box := ⟨center_x, center_y, center_z, length, width, height⟩
  let inner_box : Box :=
    ⟨center_x, center_y, center_z,
     length - 2 * wall_thickness, width - 2 * wall_thickness, height - 2 * wall_thickness⟩
  ShellResult.hollow outer_box inner_box

/-- Outer box the source builds, named for use in theorem statements. -/
def outerOf (b : BBox) : Box :=
  ⟨(b.xmin + b.xmax) / 2, (b.ymin + b.ymax) / 2, (b.zmin + b.zmax) / 2,
   b.xmax - b.xmin, b.ymax - b.ymin, b.zmax - b.zmin⟩

/-- Inner box the source builds, named for use in theorem statements. -/
def innerOf (b : BBox) (w : ℚ) : Box :=
  ⟨(b.xmin + b.xmax) / 2, (b.ymin + b.ymax) / 2, (b.zmin + b.zmax) / 2,
   b.xmax - b.xmin - 2 * w, b.ymax - b.ymin - 2 * w, b.zmax - b.zmin - 2 * w⟩

def boxMinX (bx : Box) : ℚ := bx.cx - bx.lx / 2

def boxMaxX (bx : Box) : ℚ := bx.cx + bx.lx / 2

def boxMinY (bx : Box) : ℚ := bx.cy - bx.ly / 2

def boxMaxY (bx : Box) : ℚ := bx.cy + bx.ly / 2

def boxMinZ (bx : Box) : ℚ := bx.cz - bx.lz / 2

def boxMaxZ (bx : Box) : ℚ := bx.cz + bx.lz / 2

/-- The shell rule as §4.5 of the spec words it: check `inner.max > inner.min`
on every axis; subtract if all three hold, otherwise fall back to the outer
box alone. Stated for comparison with `create_bounding_box_stl`. -/
def shellSpec (b : BBox) (w : ℚ) : ShellResult :=
  if b.xmin + w < b.xmax - w ∧ b.ymin + w < b.ymax - w ∧ b.zmin + w < b.zmax - w then
    ShellResult.hollow (outerOf b) (innerOf b w)
  else
    ShellResult.solidBox (outerOf b)

/-- One face's triangulation as handed over by the adapter. `transform` is the
face's rigid transform (`location.Transformation()`). `nodes` models the calls
`triangulation.Node(i + 1)` for `i` below `NbNodes()` and `tris` the calls
`triangulation.Triangle(i + 1).Get()` for `i` below `NbTriangles()`; a `none`
entry stands for the call raising, which the source catches per face. -/
structure FaceTri where
  transform : Vec3 → Vec3
  nodes : List (Option Vec3)
  tris : List (Option (ℕ × ℕ × ℕ))

/-- One entry of `faces_data`, mirroring the `face_info` dictionary the source
builds (occserver.py lines 165-193). -/
structure FaceInfo where
  id : String
  faceIndex : ℕ
  meshIndex : ℕ
  triangleIndices : List ℕ
  vertexIndices : List ℕ
  area : ℚ
  center : Vec3
  normal : Vec3
  bounds : Vec3 × Vec3
  vertexCount : ℕ
  triangleCount : ℕ
  vertices : List Vec3
  faceType : String
  startVertexIndex : ℕ
  startTriangleIndex : ℕ
deriving DecidableEq

/-- Vertex loop of the source (lines 113-128): walk the nodes in order,
transform each and collect it; a raising read stops the loop, and the vertices
gathered so far have at that point already been appended to the global list.
Returns the gathered vertices and whether the loop completed. -/
def extractVerts (tf : Vec3 → Vec3) : List (Option Vec3) → List Vec3 × Bool
  | [] => ([], true)
  | none :: _ => ([], false)
  | some p :: rest =>
    let r := extractVerts tf rest
    (tf p :: r.1, r.2)

/-- Triangle loop of the source (lines 134-156): each read triple `(n1,n2,n3)`
becomes the global triple `(vertex_count + n - 1, …)` with no range check on
the 1-based `n`; a raising read stops the loop, the triples gathered so far
having already been appended to the global list. -/
def extractTris (vc : ℕ) : List (Option (ℕ × ℕ × ℕ)) → List GTri × Bool
  | [] => ([], true)
  | none :: _ => ([], false)
  | some t :: rest =>
    let r := extractTris vc rest
    (((vc : ℤ) + t.1 - 1, (vc : ℤ) + t.2.1 - 1, (vc : ℤ) + t.2.2 - 1) :: r.1, r.2)

/-- Raw triples read before the first raising read, used to state range
hypotheses about the adapter's 1-based node indices. -/
def readRaw : List (Option (ℕ × ℕ × ℕ)) → List (ℕ × ℕ × ℕ)
  | [] => []
  | none :: _ => []
  | some t :: rest => t :: readRaw rest

/-- The `face_info` record of a face that passed both loops. `fv` is the
face's vertex list, `gidx` its global triangle triples, `vc` the vertex-count
snapshot and `startTri` the global triangle count when the face started; the
index lists collect the consecutive values the two loops append
(`vertex_count + i` resp. `len(triangles) - 1`). -/
def mkFaceInfo (fi vc startTri : ℕ) (fv : List Vec3) (gidx : List GTri) : FaceInfo :=
  { id := "face_" ++ toString fi
    faceIndex := fi
    meshIndex := 0
    triangleIndices := List.range' startTri gidx.length
    vertexIndices := List.range' vc fv.length
    area := calculate_face_area_accurate fv gidx
    center := calculate_face_center fv
    normal := calculate_face_normal_accurate fv gidx
    bounds := calculate_face_bounds fv
    vertexCount := fv.length
    triangleCount := gidx.length
    vertices := fv
    faceType := "unknown"
    startVertexIndex := vc
    startTriangleIndex := startTri }

/-- Face loop of `extract_mesh_data` (lines 96-202). State: faces still to
visit, the running `face_index`, the `vertex_count` snapshot counter, and the
global `vertices`, `triangles`, `faces_data` accumulators. A face without a
triangulation is skipped silently; a face whose vertex or triangle loop raises
is skipped with a warning, keeping whatever the loops already appended to the
global lists; a face that passes both loops gets its `face_info` appended and
bumps `vertex_count` by its vertex count. -/
def extractLoop :
    List (Option FaceTri) → ℕ → ℕ → List Vec3 → List GTri → List FaceInfo →
    List Vec3 × List GTri × List FaceInfo
  | [], _, _, verts, tris, infos => (verts, tris, infos)
  | none :: rest, fi, vc, verts, tris, infos =>
    extractLoop rest (fi + 1) vc verts tris infos
  | some ft :: rest, fi, vc, verts, tris, infos =>
    let fvp := extractVerts ft.transform ft.nodes
    if fvp.2 = false then
      extractLoop rest (fi + 1) vc (verts ++ fvp.1) tris infos
    else
      let gtp := extractTris vc ft.tris
      if gtp.2 = false then
        extractLoop rest (fi + 1) vc (verts ++ fvp.1) (tris ++ gtp.1) infos
      else
        extractLoop rest (fi + 1) (vc + fvp.1.length) (verts ++ fvp.1) (tris ++ gtp.1)
          (infos ++ [mkFaceInfo fi vc tris.length fvp.1 gtp.1])

/-- Translation of `extract_mesh_data` (occserver.py lines 78-204), returning
the global vertex list, the global triangle triples, and `faces_data`. -/
def extract_mesh_data (faces : List (Option FaceTri)) :
    List Vec3 × List GTri × List FaceInfo :=
  extractLoop faces 0 0 [] [] []

/-- Sum of the per-face `triangleCount` fields over the faces table. -/
def sumTriCounts (infos : List FaceInfo) : ℕ :=
  (infos.map FaceInfo.triangleCount).sum

/-- A global triple has all components inside a vertex array of `n` entries. -/
def idxOK (t : GTri) (n : ℕ) : Prop :=
  0 ≤ t.1 ∧ t.1 < (n : ℤ) ∧ 0 ≤ t.2.1 ∧ t.2.1 < (n : ℤ) ∧ 0 ≤ t.2.2 ∧ t.2.2 < (n : ℤ)

instance (t : GTri) (n : ℕ) : Decidable (idxOK t n) := by
  unfold idxOK
  infer_instance

/-- Every raw triple the adapter lets a face read has its 1-based node indices
inside the face's node range. -/
def rangeOKo : Option FaceTri → Bool
  | none => true
  | some ft =>
    (readRaw ft.tris).all fun t =>
      decide (1 ≤ t.1 ∧ t.1 ≤ ft.nodes.length ∧ 1 ≤ t.2.1 ∧ t.2.1 ≤ ft.nodes.length ∧
        1 ≤ t.2.2 ∧ t.2.2 ≤ ft.nodes.length)

/-- A face never aborts its triangle loop after having already appended a
triangle: its triangle loop either completes, or reads nothing, or the face
already failed in the vertex loop. -/
def cleanOKo : Option FaceTri → Bool
  | none => true
  | some ft =>
    !(extractVerts ft.transform ft.nodes).2 || (extractTris 0 ft.tris).2 ||
      (extractTris 0 ft.tris).1.isEmpty

/-- A face is kept in `faces_data` exactly when it has a triangulation and
both of its loops complete. -/
def faceOkB : Option FaceTri → Bool
  | none => false
  | some ft => (extractVerts ft.transform ft.nodes).2 && (extractTris 0 ft.tris).2

/-- Expected `(faceIndex, triangleCount)` pairs of the faces table: one pair
per face whose loops complete, numbered by topological position. -/
def okPairs : List (Option FaceTri) → ℕ → List (ℕ × ℕ)
  | [], _ => []
  | none :: rest, k => okPairs rest (k + 1)
  | some ft :: rest, k =>
    if (extractVerts ft.transform ft.nodes).2 && (extractTris 0 ft.tris).2 then
      (k, (extractTris 0 ft.tris).1.length) :: okPairs rest (k + 1)
    else okPairs rest (k + 1)

/-- Every face with a triangulation completes both loops (a run with no
per-face extraction failure). -/
def allOk (faces : List (Option FaceTri)) : Prop :=
  ∀ o ∈ faces, (faceOkB o || o.isNone) = true

/-- Two faces of the table own disjoint global vertex index ranges. -/
def vertDisjoint (f g : FaceInfo) : Prop :=
  ∀ a ∈ f.vertexIndices, ∀ b ∈ g.vertexIndices, a ≠ b

/-- Alignment invariant of a failure-free run: every table entry's recorded
vertex range lies inside the global vertex array, its index list is the
contiguous range starting at its own offset, and the global array holds the
face's own vertices there. -/
def alignedIn (verts : List Vec3) (info : FaceInfo) : Prop :=
  info.startVertexIndex + info.vertices.length ≤ verts.length ∧
  info.vertexIndices = List.range' info.startVertexIndex info.vertices.length ∧
  ∀ j, j < info.vertices.length →
    verts.getD (info.startVertexIndex + j) vzero = info.vertices.getD j vzero

/-- Iterated `vadd`, for stating how often a triangle contributes to a slot. -/
def nsmulV : ℕ → Vec3 → Vec3
  | 0, _ => vzero
  | n + 1, a => vadd a (nsmulV n a)

/-- Number of times vertex index `i` occurs in a triangle's index triple. -/
def countIn (i : ℕ) (t : ℕ × ℕ × ℕ) : ℕ :=
  (if t.1 = i then 1 else 0) + (if t.2.1 = i then 1 else 0) + (if t.2.2 = i then 1 else 0)

/-- Contribution of one triangle as §4.4 of the spec words it: the normalized
edge cross product, or nothing (the zero vector) when degenerate. -/
def specContrib (vertices : List Vec3) (t : ℕ × ℕ × ℕ) : Vec3 :=
  let v1 := vertices.getD t.1 vzero
  let v2 := vertices.getD t.2.1 vzero
  let v3 := vertices.getD t.2.2 vzero
  let n := cross (vsub v2 v1) (vsub v3 v1)
  if n = vzero then vzero else vdiv n (rsqrt (normSq n))

/-- Declarative accumulated normal of vertex slot `i`: the sum over all
triangles of their (unit or zero) normal, counted with multiplicity. -/
def accumSpec (vertices : List Vec3) (triangles : List (ℕ × ℕ × ℕ)) (i : ℕ) : Vec3 :=
  vsum (triangles.map fun t => nsmulV (countIn i t) (specContrib vertices t))

/-- The area formula as §4.2 of the spec words it: every triangle contributes
half the norm of the cross product of its OWN two edges `(v2-v1)` and
`(v3-v1)`. The triple components (0-based local indices for a single-face
mesh) select that triangle's vertices. -/
def area_spec (vertices : List Vec3) (triangles : List GTri) : ℚ :=
  triangles.foldl (fun total tri =>
    let v1 := vertices.getD tri.1.toNat vzero
    let v2 := vertices.getD tri.2.1.toNat vzero
    let v3 := vertices.getD tri.2.2.toNat vzero
    total + rsqrt (normSq (cross (vsub v2 v1) (vsub v3 v1))) * (1 / 2)) 0

/-- The normal rule as §4.2 of the spec words it: the normalized cross product
of the FIRST TRIANGLE's own two edges, with `[0,0,1]` as the degenerate
fallback (the epsilon of the spec is exact zero in exact arithmetic). -/
def normal_spec (vertices : List Vec3) (triangles : List GTri) : Vec3 :=
  match triangles with
  | [] => ⟨0, 0, 1⟩
  | t :: _ =>
    let v1 := vertices.getD t.1.toNat vzero
    let v2 := vertices.getD t.2.1.toNat vzero
    let v3 := vertices.getD t.2.2.toNat vzero
    let n := cross (vsub v2 v1) (vsub v3 v1)
    if n = vzero then ⟨0, 0, 1⟩ else vdiv n (rsqrt (normSq n))

/-- First-encounter deduplicating walk over a face's 1-based node references,
as §4.1 of the spec words it: append the transformed node the first time its
index is seen, skip it afterwards. -/
def dedupWalk (tf : Vec3 → Vec3) (nodes : List (Option Vec3)) :
    List ℕ → List ℕ → List Vec3
  | [], _ => []
  | n :: rest, seen =>
    if n ∈ seen then dedupWalk tf nodes rest seen
    else tf ((nodes.getD (n - 1) none).getD vzero) :: dedupWalk tf nodes rest (n :: seen)

/-- Local vertex list as the spec's Face Mesh Extractor would build it: the
distinct nodes referenced by the face's triangles, each stored once, in
first-encounter order. -/
def localVertices_spec (tf : Vec3 → Vec3) (nodes : List (Option Vec3))
    (tris : List (ℕ × ℕ × ℕ)) : List Vec3 :=
  dedupWalk tf nodes ((tris.map fun t => [t.1, t.2.1, t.2.2]).flatten) []

/-! ## Concrete inputs used by counterexamples and witnesses -/

def areaV : List Vec3 := [⟨0, 0, 0⟩, ⟨1, 0, 0⟩, ⟨0, 1, 0⟩, ⟨2, 2, 0⟩]

def areaT : List GTri := [(0, 1, 2), (0, 1, 3)]

def normalV : List Vec3 := [⟨0, 0, 0⟩, ⟨1, 0, 0⟩, ⟨2, 0, 0⟩, ⟨0, 1, 0⟩]

def normalT : List GTri := [(0, 3, 1)]

def bboxC3 : BBox := ⟨0, 4, 0, 10, 0, 10⟩

def faceC1 : FaceTri := ⟨fun v => v, [some ⟨0, 0, 0⟩], [some (1, 1, 1), none]⟩

def faceGood : FaceTri :=
  ⟨fun v => v, [some ⟨0, 0, 0⟩, some ⟨1, 0, 0⟩, some ⟨0, 1, 0⟩], [some (1, 2, 3)]⟩

def faceBadV : FaceTri := ⟨fun v => v, [none], []⟩

def faceC4 : FaceTri := ⟨fun v => v, [some ⟨0, 0, 0⟩], []⟩

def faceC5 : FaceTri := ⟨fun v => v, [some ⟨0, 0, 0⟩], [some (1, 2, 3)]⟩

def faceC7 : FaceTri := ⟨fun v => v, [some ⟨0, 0, 0⟩, some ⟨5, 5, 5⟩], [some (1, 1, 1)]⟩

def faceW1 : FaceTri := ⟨fun v => v, [some ⟨0, 0, 0⟩, some ⟨1, 0, 0⟩], [some (1, 2, 2)]⟩

def faceW2 : FaceTri := ⟨fun v => v, [some ⟨1, 0, 0⟩, some ⟨2, 0, 0⟩], [some (1, 1, 2)]⟩

def c1WitnessFaces : List (Option FaceTri) := [some faceGood, none, some faceBadV]

def c9Faces : List (Option FaceTri) := [some faceW1, some faceW2]

def faceBadMid : FaceTri := ⟨fun v => v, [some ⟨9, 9, 9⟩, none], []⟩

def faceAfterBad : FaceTri := ⟨fun v => v, [some ⟨2, 0, 0⟩, some ⟨1, 0, 0⟩], [some (1, 1, 2)]⟩

def c9BadFaces : List (Option FaceTri) := [some faceW1, some faceBadMid, some faceAfterBad]

/-- Default `FaceInfo` used only as the `getD` fallback in concrete statements
whose indices are in range. -/
def fiDefault : FaceInfo := mkFaceInfo 0 0 0 [] []

instance (faces : List (Option FaceTri)) : Decidable (allOk faces) := by
  unfold allOk
  infer_instance

/-! ## Theorems -/

theorem vadd_vzero (a : Vec3) : vadd a vzero = a := by
  simp [vadd, vzero]

theorem vzero_vadd (a : Vec3) : vadd vzero a = a := by
  simp [vadd, vzero]

theorem vadd_comm (a b : Vec3) : vadd a b = vadd b a := by
  simp only [vadd]
  congr 1 <;> ring

theorem vaddAssoc (a b c : Vec3) : vadd (vadd a b) c = vadd a (vadd b c) := by
  simp only [vadd]
  congr 1 <;> ring

theorem normSq_nonneg (a : Vec3) : 0 ≤ normSq a := by
  have hx := sq_nonneg a.x
  have hy := sq_nonneg a.y
  have hz := sq_nonneg a.z
  simp only [normSq]
  nlinarith

theorem normSq_eq_zero {a : Vec3} (h : normSq a = 0) : a = vzero := by
  have hx := sq_nonneg a.x
  have hy := sq_nonneg a.y
  have hz := sq_nonneg a.z
  simp only [normSq] at h
  have hx0 : a.x = 0 := by nlinarith
  have hy0 : a.y = 0 := by nlinarith
  have hz0 : a.z = 0 := by nlinarith
  cases a
  simp_all [vzero]

theorem rsqrt_pos {q : ℚ} (h : 0 < q) : 0 < rsqrt q := by
  have hnum : 0 < q.num := Rat.num_pos.mpr h
  have hnum' : 0 < q.num.toNat := by omega
  have h1 : 0 < Nat.sqrt q.num.toNat := Nat.sqrt_pos.mpr hnum'
  have h2 : 0 < Nat.sqrt q.den := Nat.sqrt_pos.mpr q.pos
  exact div_pos (by exact_mod_cast h1) (by exact_mod_cast h2)

theorem rsqrt_zero : rsqrt 0 = 0 := by
  simp [rsqrt]

theorem rsqrt_nonneg (q : ℚ) : 0 ≤ rsqrt q := by
  have h1 : (0:ℚ) ≤ (Nat.sqrt q.num.toNat : ℚ) := by positivity
  have h2 : (0:ℚ) ≤ (Nat.sqrt q.den : ℚ) := by positivity
  exact div_nonneg h1 h2

/-- When the source tests `length > 0` on `length = sqrt(normSq n)` and the
test fails, the vector itself is zero (exact arithmetic). -/
theorem not_rsqrt_normSq_pos {a : Vec3} (h : ¬ 0 < rsqrt (normSq a)) : a = vzero := by
  rcases lt_or_eq_of_le (normSq_nonneg a) with hlt | heq
  · exact absurd (rsqrt_pos hlt) h
  · exact normSq_eq_zero heq.symm

/-! ## Lemmas about the two inner loops -/

theorem extractTris_fst (vc : ℕ) (ts : List (Option (ℕ × ℕ × ℕ))) :
    (extractTris vc ts).1 =
      (readRaw ts).map fun t =>
        (((vc : ℤ) + t.1 - 1, (vc : ℤ) + t.2.1 - 1, (vc : ℤ) + t.2.2 - 1) : GTri) := by
  induction ts with
  | nil => simp [extractTris, readRaw]
  | cons o rest ih =>
    cases o with
    | none => simp [extractTris, readRaw]
    | some t => simp [extractTris, readRaw, ih]

theorem extractTris_snd (vc : ℕ) (ts : List (Option (ℕ × ℕ × ℕ))) :
    (extractTris vc ts).2 = (extractTris 0 ts).2 := by
  induction ts with
  | nil => simp [extractTris]
  | cons o rest ih =>
    cases o with
    | none => simp [extractTris]
    | some t => simpa [extractTris] using ih

theorem extractTris_length (vc : ℕ) (ts : List (Option (ℕ × ℕ × ℕ))) :
    (extractTris vc ts).1.length = (readRaw ts).length := by
  rw [extractTris_fst]
  simp

theorem extractVerts_length_le (tf : Vec3 → Vec3) (ns : List (Option Vec3)) :
    (extractVerts tf ns).1.length ≤ ns.length := by
  induction ns with
  | nil => simp [extractVerts]
  | cons o rest ih =>
    cases o with
    | none => simp [extractVerts]
    | some p => simpa [extractVerts] using ih

theorem extractVerts_complete_length {tf : Vec3 → Vec3} {ns : List (Option Vec3)}
    (h : (extractVerts tf ns).2 = true) : (extractVerts tf ns).1.length = ns.length := by
  induction ns with
  | nil => simp [extractVerts]
  | cons o rest ih =>
    cases o with
    | none => simp [extractVerts] at h
    | some p =>
      simp only [extractVerts] at h ⊢
      simpa using ih h

theorem extractVerts_complete_getD {tf : Vec3 → Vec3} {ns : List (Option Vec3)}
    (h : (extractVerts tf ns).2 = true) :
    ∀ j, j < ns.length →
      some ((extractVerts tf ns).1.getD j vzero) = (ns.getD j none).map tf := by
  induction ns with
  | nil => simp
  | cons o rest ih =>
    cases o with
    | none => simp [extractVerts] at h
    | some p =>
      simp only [extractVerts] at h
      intro j hj
      cases j with
      | zero => simp [extractVerts]
      | succ k =>
        simp only [List.length_cons, Nat.succ_lt_succ_iff] at hj
        simpa [extractVerts] using ih h k hj

theorem readRaw_of_complete {ts : List (Option (ℕ × ℕ × ℕ))}
    (h : (extractTris 0 ts).2 = true) : (readRaw ts).length = ts.length := by
  induction ts with
  | nil => simp [readRaw]
  | cons o rest ih =>
    cases o with
    | none => simp [extractTris] at h
    | some t =>
      simp only [extractTris] at h
      simpa [readRaw] using ih h

/-! ## Loop invariants of `extract_mesh_data` -/

theorem extractLoop_pairs (faces : List (Option FaceTri)) :
    ∀ fi vc verts tris infos,
      ((extractLoop faces fi vc verts tris infos).2.2).map
          (fun i => (i.faceIndex, i.triangleCount)) =
        infos.map (fun i => (i.faceIndex, i.triangleCount)) ++ okPairs faces fi := by
  induction faces with
  | nil =>
    intro fi vc verts tris infos
    simp [extractLoop, okPairs]
  | cons o rest ih =>
    intro fi vc verts tris infos
    cases o with
    | none => simp [extractLoop, okPairs, ih]
    | some ft =>
      simp only [extractLoop]
      cases hv : (extractVerts ft.transform ft.nodes).2 with
      | false => simp [hv, okPairs, ih]
      | true =>
        cases ht : (extractTris 0 ft.tris).2 with
        | false =>
          have ht' : (extractTris vc ft.tris).2 = false := by
            rw [extractTris_snd]; exact ht
          simp [hv, ht, ht', okPairs, ih]
        | true =>
          have ht' : (extractTris vc ft.tris).2 = true := by
            rw [extractTris_snd]; exact ht
          have hlen : (extractTris vc ft.tris).1.length = (extractTris 0 ft.tris).1.length := by
            rw [extractTris_length, extractTris_length]
          simp [hv, ht, ht', okPairs, ih, mkFaceInfo, hlen]

theorem idxOK_mono {t : GTri} {n m : ℕ} (h : idxOK t n) (hnm : n ≤ m) : idxOK t m := by
  unfold idxOK at h ⊢
  omega

/-- Global triples produced for a face whose raw node indices are in range
stay below `vc + NbNodes`, hence inside any vertex array extending that far. -/
theorem extractTris_idxOK {ft : FaceTri} (hR : rangeOKo (some ft) = true)
    {vc n : ℕ} (hvc : vc + ft.nodes.length ≤ n) :
    ∀ t ∈ (extractTris vc ft.tris).1, idxOK t n := by
  intro t ht
  rw [extractTris_fst] at ht
  rcases List.mem_map.mp ht with ⟨raw, hraw, rfl⟩
  simp only [rangeOKo, List.all_eq_true] at hR
  have hr := of_decide_eq_true (hR raw hraw)
  unfold idxOK
  obtain ⟨h1, h2, h3, h4, h5, h6⟩ := hr
  refine ⟨?_, ?_, ?_, ?_, ?_, ?_⟩ <;> push_cast <;> omega

theorem extractLoop_sum (faces : List (Option FaceTri))
    (hC : ∀ o ∈ faces, cleanOKo o = true) :
    ∀ fi vc verts tris infos,
      (extractLoop faces fi vc verts tris infos).2.1.length + sumTriCounts infos =
        tris.length + sumTriCounts (extractLoop faces fi vc verts tris infos).2.2 := by
  induction faces with
  | nil =>
    intro fi vc verts tris infos
    simp [extractLoop]
  | cons o rest ih =>
    have hCtail : ∀ o' ∈ rest, cleanOKo o' = true := fun o' ho' =>
      hC o' (List.mem_cons_of_mem _ ho')
    intro fi vc verts tris infos
    cases o with
    | none => simpa [extractLoop] using ih hCtail (fi + 1) vc verts tris infos
    | some ft =>
      simp only [extractLoop]
      cases hv : (extractVerts ft.transform ft.nodes).2 with
      | false =>
        simpa [hv] using
          ih hCtail (fi + 1) vc (verts ++ (extractVerts ft.transform ft.nodes).1) tris infos
      | true =>
        cases ht : (extractTris 0 ft.tris).2 with
        | false =>
          have hclean := hC (some ft) (List.mem_cons_self _ rest)
          simp only [cleanOKo, hv, ht, Bool.not_true, Bool.false_or] at hclean
          have hraw : readRaw ft.tris = [] := by
            have h0 := List.isEmpty_iff.mp hclean
            rw [extractTris_fst] at h0
            exact List.map_eq_nil_iff.mp h0
          have hempty : (extractTris vc ft.tris).1 = [] := by
            rw [extractTris_fst, hraw]
            simp
          have ht' : (extractTris vc ft.tris).2 = false := by
            rw [extractTris_snd]; exact ht
          simpa [hv, ht', hempty] using
            ih hCtail (fi + 1) vc (verts ++ (extractVerts ft.transform ft.nodes).1) tris infos
        | true =>
          have ht' : (extractTris vc ft.tris).2 = true := by
            rw [extractTris_snd]; exact ht
          have key := ih hCtail (fi + 1) (vc + (extractVerts ft.transform ft.nodes).1.length)
            (verts ++ (extractVerts ft.transform ft.nodes).1)
            (tris ++ (extractTris vc ft.tris).1)
            (infos ++ [mkFaceInfo fi vc tris.length (extractVerts ft.transform ft.nodes).1
              (extractTris vc ft.tris).1])
          have hsum : sumTriCounts (infos ++ [mkFaceInfo fi vc tris.length
              (extractVerts ft.transform ft.nodes).1 (extractTris vc ft.tris).1]) =
              sumTriCounts infos + (extractTris vc ft.tris).1.length := by
            simp [sumTriCounts, mkFaceInfo]
          rw [hsum, List.length_append] at key
          simp only [hv, ht', Bool.true_eq_false, if_false, ite_false]
          omega

theorem extractLoop_idx (faces : List (Option FaceTri))
    (hR : ∀ o ∈ faces, rangeOKo o = true) :
    ∀ fi vc verts tris infos,
      vc ≤ verts.length →
      (∀ t ∈ tris, idxOK t verts.length) →
      ∀ t ∈ (extractLoop faces fi vc verts tris infos).2.1,
        idxOK t (extractLoop faces fi vc verts tris infos).1.length := by
  induction faces with
  | nil =>
    intro fi vc verts tris infos _hvc hts
    simpa [extractLoop] using hts
  | cons o rest ih =>
    have hRtail : ∀ o' ∈ rest, rangeOKo o' = true := fun o' ho' =>
      hR o' (List.mem_cons_of_mem _ ho')
    intro fi vc verts tris infos hvc hts
    cases o with
    | none =>
      simpa [extractLoop] using ih hRtail (fi + 1) vc verts tris infos hvc hts
    | some ft =>
      simp only [extractLoop]
      have hmono : ∀ t ∈ tris, idxOK t (verts ++ (extractVerts ft.transform ft.nodes).1).length :=
        fun t ht => idxOK_mono (hts t ht) (by simp)
      have hvc' : vc ≤ (verts ++ (extractVerts ft.transform ft.nodes).1).length := by
        simp only [List.length_append]
        omega
      cases hv : (extractVerts ft.transform ft.nodes).2 with
      | false =>
        simpa [hv] using
          ih hRtail (fi + 1) vc (verts ++ (extractVerts ft.transform ft.nodes).1) tris infos
            hvc' hmono
      | true =>
        have hfull : (extractVerts ft.transform ft.nodes).1.length = ft.nodes.length :=
          extractVerts_complete_length hv
        have hnew : ∀ t ∈ tris ++ (extractTris vc ft.tris).1,
            idxOK t (verts ++ (extractVerts ft.transform ft.nodes).1).length := by
          intro t ht
          rcases List.mem_append.mp ht with hin | hin
          · exact hmono t hin
          · refine extractTris_idxOK (hR (some ft) (List.mem_cons_self _ rest)) ?_ t hin
            simp only [List.length_append, hfull]
            omega
        cases ht : (extractTris vc ft.tris).2 with
        | false =>
          simpa [hv, ht] using
            ih hRtail (fi + 1) vc (verts ++ (extractVerts ft.transform ft.nodes).1)
              (tris ++ (extractTris vc ft.tris).1) infos hvc' hnew
        | true =>
          have hvc'' : vc + (extractVerts ft.transform ft.nodes).1.length ≤
              (verts ++ (extractVerts ft.transform ft.nodes).1).length := by
            simp only [List.length_append]
            omega
          simpa [hv, ht] using
            ih hRtail (fi + 1) (vc + (extractVerts ft.transform ft.nodes).1.length)
              (verts ++ (extractVerts ft.transform ft.nodes).1)
              (tris ++ (extractTris vc ft.tris).1)
              (infos ++ [mkFaceInfo fi vc tris.length (extractVerts ft.transform ft.nodes).1
                (extractTris vc ft.tris).1]) hvc'' hnew

theorem extractLoop_disjoint (faces : List (Option FaceTri)) :
    ∀ fi vc verts tris infos,
      infos.Pairwise vertDisjoint →
      (∀ info ∈ infos, ∀ a ∈ info.vertexIndices, a < vc) →
      (extractLoop faces fi vc verts tris infos).2.2.Pairwise vertDisjoint := by
  induction faces with
  | nil =>
    intro fi vc verts tris infos hpw _hbd
    simpa [extractLoop] using hpw
  | cons o rest ih =>
    intro fi vc verts tris infos hpw hbd
    cases o with
    | none =>
      simpa [extractLoop] using ih (fi + 1) vc verts tris infos hpw hbd
    | some ft =>
      simp only [extractLoop]
      cases hv : (extractVerts ft.transform ft.nodes).2 with
      | false =>
        simpa [hv] using
          ih (fi + 1) vc (verts ++ (extractVerts ft.transform ft.nodes).1) tris infos hpw hbd
      | true =>
        cases ht : (extractTris vc ft.tris).2 with
        | false =>
          simpa [hv, ht] using
            ih (fi + 1) vc (verts ++ (extractVerts ft.transform ft.nodes).1)
              (tris ++ (extractTris vc ft.tris).1) infos hpw hbd
        | true =>
          have hnewmem : ∀ a ∈ (mkFaceInfo fi vc tris.length
              (extractVerts ft.transform ft.nodes).1 (extractTris vc ft.tris).1).vertexIndices,
              vc ≤ a ∧ a < vc + (extractVerts ft.transform ft.nodes).1.length := by
            intro a ha
            simp only [mkFaceInfo, List.mem_range'] at ha
            obtain ⟨i, hi, rfl⟩ := ha
            omega
          have hpw' : (infos ++ [mkFaceInfo fi vc tris.length
              (extractVerts ft.transform ft.nodes).1 (extractTris vc ft.tris).1]).Pairwise
              vertDisjoint := by
            rw [List.pairwise_append]
            refine ⟨hpw, List.pairwise_singleton _ _, ?_⟩
            intro f hf g hg
            rw [List.mem_singleton] at hg
            subst hg
            intro a ha b hb
            have h1 := hbd f hf a ha
            have h2 := (hnewmem b hb).1
            omega
          have hbd' : ∀ info ∈ infos ++ [mkFaceInfo fi vc tris.length
              (extractVerts ft.transform ft.nodes).1 (extractTris vc ft.tris).1],
              ∀ a ∈ info.vertexIndices, a < vc + (extractVerts ft.transform ft.nodes).1.length := by
            intro info hinfo a ha
            rcases List.mem_append.mp hinfo with hin | hin
            · have := hbd info hin a ha
              omega
            · rw [List.mem_singleton] at hin
              subst hin
              exact (hnewmem a ha).2
          simpa [hv, ht] using
            ih (fi + 1) (vc + (extractVerts ft.transform ft.nodes).1.length)
              (verts ++ (extractVerts ft.transform ft.nodes).1)
              (tris ++ (extractTris vc ft.tris).1)
              (infos ++ [mkFaceInfo fi vc tris.length (extractVerts ft.transform ft.nodes).1
                (extractTris vc ft.tris).1]) hpw' hbd'

theorem extractLoop_align (faces : List (Option FaceTri))
    (hA : ∀ o ∈ faces, (faceOkB o || o.isNone) = true) :
    ∀ fi vc verts tris infos,
      vc = verts.length →
      (∀ info ∈ infos, alignedIn verts info) →
      ∀ info ∈ (extractLoop faces fi vc verts tris infos).2.2,
        alignedIn (extractLoop faces fi vc verts tris infos).1 info := by
  induction faces with
  | nil =>
    intro fi vc verts tris infos _hvc hal
    simpa [extractLoop] using hal
  | cons o rest ih =>
    have hAtail : ∀ o' ∈ rest, (faceOkB o' || o'.isNone) = true := fun o' ho' =>
      hA o' (List.mem_cons_of_mem _ ho')
    intro fi vc verts tris infos hvc hal
    cases o with
    | none =>
      simpa [extractLoop] using ih hAtail (fi + 1) vc verts tris infos hvc hal
    | some ft =>
      have hok := hA (some ft) (List.mem_cons_self _ rest)
      simp only [faceOkB, Option.isNone_some, Bool.or_false, Bool.and_eq_true] at hok
      obtain ⟨hv, ht0⟩ := hok
      have ht : (extractTris vc ft.tris).2 = true := by
        rw [extractTris_snd]; exact ht0
      simp only [extractLoop, hv, ht, Bool.true_eq_false, if_false, ite_false]
      have hal' : ∀ info ∈ infos ++ [mkFaceInfo fi vc tris.length
          (extractVerts ft.transform ft.nodes).1 (extractTris vc ft.tris).1],
          alignedIn (verts ++ (extractVerts ft.transform ft.nodes).1) info := by
        intro info hinfo
        rcases List.mem_append.mp hinfo with hin | hin
        · obtain ⟨h1, h2, h3⟩ := hal info hin
          refine ⟨by simp only [List.length_append]; omega, h2, ?_⟩
          intro j hj
          rw [List.getD_append _ _ _ _ (by omega)]
          exact h3 j hj
        · rw [List.mem_singleton] at hin
          subst hin
          refine ⟨?_, ?_, ?_⟩
          · simp only [mkFaceInfo, List.length_append]
            omega
          · simp [mkFaceInfo]
          · intro j hj
            simp only [mkFaceInfo] at hj ⊢
            rw [hvc, List.getD_append_right _ _ _ _ (by omega)]
            congr 1
            omega
      have hvc' : vc + (extractVerts ft.transform ft.nodes).1.length =
          (verts ++ (extractVerts ft.transform ft.nodes).1).length := by
        simp only [List.length_append]
        omega
      exact ih hAtail (fi + 1) (vc + (extractVerts ft.transform ft.nodes).1.length)
        (verts ++ (extractVerts ft.transform ft.nodes).1)
        (tris ++ (extractTris vc ft.tris).1)
        (infos ++ [mkFaceInfo fi vc tris.length (extractVerts ft.transform ft.nodes).1
          (extractTris vc ft.tris).1]) hvc' hal'

/-- Shared branch shape of the two normalization sites: dividing by the length
when it is positive and keeping the vector otherwise equals the spec's
"normalize, or contribute nothing when degenerate". -/
theorem normalizeBranch_eq (n : Vec3) :
    (if 0 < rsqrt (normSq n) then vdiv n (rsqrt (normSq n)) else n) =
      (if n = vzero then vzero else vdiv n (rsqrt (normSq n))) := by
  by_cases hpos : 0 < rsqrt (normSq n)
  · have hne : n ≠ vzero := by
      intro h0
      rw [h0] at hpos
      have hz : normSq vzero = 0 := by simp [normSq, vzero]
      rw [hz, rsqrt_zero] at hpos
      exact lt_irrefl 0 hpos
    simp [hpos, hne]
  · have h0 := not_rsqrt_normSq_pos hpos
    subst h0
    have hz : normSq vzero = 0 := by simp [normSq, vzero]
    rw [hz, rsqrt_zero]
    simp

/-- The vector the source's loop adds is exactly the spec's contribution: when
the length test fails the source adds the raw cross product, which is then the
zero vector. -/
theorem triFaceNormal_eq_specContrib (vertices : List Vec3) (t : ℕ × ℕ × ℕ) :
    triFaceNormal vertices t = specContrib vertices t :=
  normalizeBranch_eq _

theorem addToIdx_length (ns : List Vec3) (idx : ℕ) (x : Vec3) :
    (addToIdx ns idx x).length = ns.length := by
  simp [addToIdx]

theorem addToIdx_getD (ns : List Vec3) (idx i : ℕ) (x : Vec3) (hi : i < ns.length) :
    (addToIdx ns idx x).getD i vzero =
      if idx = i then vadd (ns.getD i vzero) x else ns.getD i vzero := by
  have hi' : i < (addToIdx ns idx x).length := by
    rw [addToIdx_length]; exact hi
  rw [List.getD_eq_getElem _ _ hi', List.getD_eq_getElem _ _ hi]
  unfold addToIdx
  rw [List.getElem_set]
  by_cases h : idx = i
  · subst h
    simp [List.getElem?_eq_getElem hi]
  · simp [h]

theorem addToIdx3_getD (t : ℕ × ℕ × ℕ) (x : Vec3) (ns : List Vec3) (i : ℕ)
    (hi : i < ns.length) :
    (addToIdx (addToIdx (addToIdx ns t.1 x) t.2.1 x) t.2.2 x).getD i vzero =
      vadd (ns.getD i vzero) (nsmulV (countIn i t) x) := by
  have h1 : i < (addToIdx ns t.1 x).length := by rw [addToIdx_length]; exact hi
  have h2 : i < (addToIdx (addToIdx ns t.1 x) t.2.1 x).length := by
    rw [addToIdx_length]; exact h1
  rw [addToIdx_getD _ _ _ _ h2, addToIdx_getD _ _ _ _ h1, addToIdx_getD _ _ _ _ hi]
  by_cases e1 : t.1 = i <;> by_cases e2 : t.2.1 = i <;> by_cases e3 : t.2.2 = i <;>
    simp [e1, e2, e3, countIn, nsmulV, vaddAssoc, vadd_vzero]

theorem accumLoop_length (vertices : List Vec3) (ts : List (ℕ × ℕ × ℕ)) :
    ∀ ns, (accumLoop vertices ts ns).length = ns.length := by
  induction ts with
  | nil => intro ns; simp [accumLoop]
  | cons t rest ih =>
    intro ns
    simp only [accumLoop]
    rw [ih, addToIdx_length, addToIdx_length, addToIdx_length]

theorem accumLoop_getD (vertices : List Vec3) (ts : List (ℕ × ℕ × ℕ)) :
    ∀ ns i, i < ns.length →
      (accumLoop vertices ts ns).getD i vzero =
        vadd (ns.getD i vzero) (accumSpec vertices ts i) := by
  induction ts with
  | nil =>
    intro ns i _hi
    simp [accumLoop, accumSpec, vsum, vadd_vzero]
  | cons t rest ih =>
    intro ns i hi
    have hi' : i < (addToIdx (addToIdx (addToIdx ns t.1 (triFaceNormal vertices t)) t.2.1
        (triFaceNormal vertices t)) t.2.2 (triFaceNormal vertices t)).length := by
      rw [addToIdx_length, addToIdx_length, addToIdx_length]; exact hi
    simp only [accumLoop]
    rw [ih _ i hi', addToIdx3_getD _ _ _ _ hi, triFaceNormal_eq_specContrib]
    have hcons : accumSpec vertices (t :: rest) i =
        vadd (nsmulV (countIn i t) (specContrib vertices t)) (accumSpec vertices rest i) := by
      simp [accumSpec, vsum]
    rw [hcons, vaddAssoc]

/-- The synthesized vertex normals, characterized declaratively: slot `i`
holds the finalized sum of the incident triangles' unit normals. -/
theorem calculate_normals_eq (vertices : List Vec3) (triangles : List (ℕ × ℕ × ℕ)) :
    calculate_normals vertices triangles =
      (List.range vertices.length).map fun i =>
        finalizeNormal (accumSpec vertices triangles i) := by
  apply List.ext_getElem
  · simp [calculate_normals, accumLoop_length]
  · intro i hi1 hi2
    have hlen : i < vertices.length := by
      simpa [calculate_normals, accumLoop_length] using hi1
    have hinit : i < (vertices.map fun _ => vzero).length := by
      simpa using hlen
    simp only [calculate_normals, List.getElem_map, List.getElem_range]
    congr 1
    rw [← List.getD_eq_getElem _ vzero (by rwa [accumLoop_length])]
    rw [accumLoop_getD _ _ _ i hinit]
    rw [List.getD_eq_getElem _ _ hinit]
    simp [vzero_vadd]

theorem okPairs_append (l1 l2 : List (Option FaceTri)) :
    ∀ k, okPairs (l1 ++ l2) k = okPairs l1 k ++ okPairs l2 (k + l1.length) := by
  induction l1 with
  | nil =>
    intro k
    simp [okPairs]
  | cons o rest ih =>
    intro k
    have harith : k + 1 + rest.length = k + (rest.length + 1) := by omega
    cases o with
    | none =>
      simp only [List.cons_append, okPairs, List.append_eq, List.length_cons]
      rw [ih, harith]
    | some ft =>
      cases hc : ((extractVerts ft.transform ft.nodes).2 && (extractTris 0 ft.tris).2) with
      | true =>
        simp only [List.cons_append, okPairs, List.append_eq, List.length_cons, hc, if_true,
          List.cons_append]
        rw [ih, harith]
      | false =>
        simp only [List.cons_append, okPairs, List.append_eq, List.length_cons, hc,
          Bool.false_eq_true, if_false]
        rw [ih, harith]

theorem foldl_vadd_eq (l : List Vec3) : ∀ a, l.foldl vadd a = vadd a (vsum l) := by
  induction l with
  | nil =>
    intro a
    have h2 : vsum [] = vzero := rfl
    rw [h2, vadd_vzero]
    rfl
  | cons v rest ih =>
    intro a
    have h1 : (v :: rest).foldl vadd a = rest.foldl vadd (vadd a v) := rfl
    have h2 : vsum (v :: rest) = vadd v (vsum rest) := rfl
    rw [h1, ih, h2]
    exact vaddAssoc a v (vsum rest)

/-! ## Claims -/

theorem intToNat_two : (2 : ℤ).toNat = 2 := by decide

theorem intToNat_three : (3 : ℤ).toNat = 3 := by decide

theorem natSqrt_four : Nat.sqrt 4 = 2 := by
  have h : (4 : ℕ) = 2 * 2 := by norm_num
  rw [h, Nat.sqrt_eq]

theorem rsqrt_one : rsqrt 1 = 1 := by
  have h1 : (1 : ℚ).num = 1 := by norm_num
  have h2 : (1 : ℚ).den = 1 := by norm_num
  rw [rsqrt, h1, h2]
  norm_num

theorem rsqrt_four : rsqrt 4 = 2 := by
  have h1 : (4 : ℚ).num = 4 := by norm_num
  have h2 : (4 : ℚ).den = 1 := by norm_num
  have h3 : (4 : ℤ).toNat = 4 := by decide
  rw [rsqrt, h1, h2, h3]
  norm_num [natSqrt_four]

/-- Claim C2: the spec demands that every triangle contribute the area of its
OWN three vertices, but `calculate_face_area_accurate` reads `vertices[0..2]`
on every iteration (the loop variable is unused). On a mesh of two triangles
covering area 3/2 the source returns 1 = 2 × (area of the first three
vertices' triangle), while the spec's formula gives 3/2. -/
theorem claim_c2_code_bug :
    calculate_face_area_accurate areaV areaT = 1 ∧ area_spec areaV areaT = 3 / 2 := by
  constructor
  · norm_num [calculate_face_area_accurate, areaV, areaT, vsub, cross, normSq, vzero,
      rsqrt_one]
  · norm_num [area_spec, areaV, areaT, vsub, cross, normSq, vzero, rsqrt_one, rsqrt_four,
      Int.toNat_ofNat, intToNat_two, intToNat_three]

/-- Claim C3 (counterexample): on a 4×10×10 bounding box with wall thickness
5/2, the spec's validity check fails on the x axis and demands the solid
outer-box fallback, but `create_bounding_box_stl` performs no check and still
returns the boolean difference with a degenerate inner box. -/
theorem claim_c3_counterexample :
    create_bounding_box_stl bboxC3 (5 / 2) ≠ shellSpec bboxC3 (5 / 2) ∧
      shellSpec bboxC3 (5 / 2) = ShellResult.solidBox (outerOf bboxC3) ∧
      create_bounding_box_stl bboxC3 (5 / 2) =
        ShellResult.hollow (outerOf bboxC3) (innerOf bboxC3 (5 / 2)) := by
  refine ⟨?_, ?_, rfl⟩
  · norm_num [create_bounding_box_stl, shellSpec, bboxC3]
    exact fun h => ShellResult.noConfusion h
  · norm_num [shellSpec, bboxC3, outerOf]

/-- Claim C3 (amended): for every bounding box and wall thickness the builder
unconditionally returns the boolean difference of the outer box spanning
exactly AABB min..max and the inner box spanning (min+w)..(max−w) per axis;
it performs no inner-box validity check and has no solid fallback. -/
theorem claim_c3_amended (b : BBox) (w : ℚ) :
    create_bounding_box_stl b w = ShellResult.hollow (outerOf b) (innerOf b w) ∧
      boxMinX (outerOf b) = b.xmin ∧ boxMaxX (outerOf b) = b.xmax ∧
      boxMinY (outerOf b) = b.ymin ∧ boxMaxY (outerOf b) = b.ymax ∧
      boxMinZ (outerOf b) = b.zmin ∧ boxMaxZ (outerOf b) = b.zmax ∧
      boxMinX (innerOf b w) = b.xmin + w ∧ boxMaxX (innerOf b w) = b.xmax - w ∧
      boxMinY (innerOf b w) = b.ymin + w ∧ boxMaxY (innerOf b w) = b.ymax - w ∧
      boxMinZ (innerOf b w) = b.zmin + w ∧ boxMaxZ (innerOf b w) = b.zmax - w := by
  refine ⟨rfl, ?_, ?_, ?_, ?_, ?_, ?_, ?_, ?_, ?_, ?_, ?_, ?_⟩ <;>
    simp only [boxMinX, boxMaxX, boxMinY, boxMaxY, boxMinZ, boxMaxZ, outerOf, innerOf] <;>
    ring

/-- Claim C6: the spec demands the normalized cross product of the FIRST
TRIANGLE's own edges, but `calculate_face_normal_accurate` reads the face's
first three vertices and ignores the triangle list. On a face whose first
three vertices are collinear but whose first triangle is (0,3,1), the source
falls back to [0,0,1] while the spec's rule gives [0,0,-1]. -/
theorem claim_c6_code_bug :
    calculate_face_normal_accurate normalV normalT = ⟨0, 0, 1⟩ ∧
      normal_spec normalV normalT = ⟨0, 0, -1⟩ := by
  constructor
  · norm_num [calculate_face_normal_accurate, normalV, normalT, vsub, cross, normSq, vzero,
      rsqrt_zero]
  · norm_num [normal_spec, normalV, normalT, vsub, cross, normSq, vzero, vdiv, rsqrt_one,
      Int.toNat_ofNat, intToNat_two, intToNat_three]

/-- Claim C10: `calculate_face_center` returns the origin on an empty vertex
list without dividing by zero, and on every non-empty list its value scaled by
the vertex count is the componentwise vertex sum, i.e. it is the arithmetic
mean; the function is total. -/
theorem claim_c10 :
    calculate_face_center [] = vzero ∧
      ∀ vs : List Vec3, vs ≠ [] →
        vscale ((vs.length : ℚ)) (calculate_face_center vs) = vsum vs := by
  constructor
  · rfl
  · intro vs hvs
    have hn : (0 : ℚ) < (vs.length : ℚ) := by
      have := List.length_pos.mpr hvs
      exact_mod_cast this
    have hne : ((vs.length : ℚ)) ≠ 0 := ne_of_gt hn
    simp only [calculate_face_center, if_neg hvs]
    rw [foldl_vadd_eq]
    have hz : (⟨0, 0, 0⟩ : Vec3) = vzero := rfl
    rw [hz, vzero_vadd]
    rcases hs : vsum vs with ⟨sx, sy, sz⟩
    simp only [vscale, Vec3.mk.injEq]
    refine ⟨?_, ?_, ?_⟩ <;> field_simp

/-- Concrete instantiation of `claim_c10`'s non-empty case at a two-vertex
list: twice the center is the vertex sum. -/
theorem claim_c10_witness :
    ([⟨1, 2, 3⟩, ⟨3, 4, 5⟩] : List Vec3) ≠ [] ∧
      vscale ((([⟨1, 2, 3⟩, ⟨3, 4, 5⟩] : List Vec3).length : ℚ))
        (calculate_face_center [⟨1, 2, 3⟩, ⟨3, 4, 5⟩]) = vsum [⟨1, 2, 3⟩, ⟨3, 4, 5⟩] :=
  ⟨by decide, claim_c10.2 [⟨1, 2, 3⟩, ⟨3, 4, 5⟩] (by decide)⟩

/-- Claim C1 (counterexample): on a face whose triangle loop raises after one
triangle was already appended, that triangle stays in the global index list
while the face is dropped from the table, so the per-face triangle counts sum
to 0 but the global list holds 1 triple. -/
theorem claim_c1_counterexample :
    ¬ (sumTriCounts (extract_mesh_data [some faceC1]).2.2 =
        (extract_mesh_data [some faceC1]).2.1.length) := by
  decide

/-- Claim C1 (amended): when every successfully read triple's 1-based node
indices lie within its face's node count, every global index is nonnegative
and below the global vertex count — in EVERY run, including ones with
mid-loop per-face failures, with no further hypothesis; the per-face triangle
counts sum exactly to the number of global triples only under the additional
condition that no face's triangle loop raises after appending at least one
triangle. -/
theorem claim_c1_amended (faces : List (Option FaceTri))
    (hR : ∀ o ∈ faces, rangeOKo o = true) :
    (∀ t ∈ (extract_mesh_data faces).2.1, idxOK t (extract_mesh_data faces).1.length) ∧
      ((∀ o ∈ faces, cleanOKo o = true) →
        sumTriCounts (extract_mesh_data faces).2.2 =
          (extract_mesh_data faces).2.1.length) := by
  constructor
  · exact extractLoop_idx faces hR 0 0 [] [] [] (by simp) (by simp)
  · intro hC
    have h := extractLoop_sum faces hC 0 0 [] [] []
    simp only [extract_mesh_data, sumTriCounts, List.map_nil, List.sum_nil,
      List.length_nil] at h ⊢
    omega

/-- Concrete instantiation of `claim_c1_amended`: a run with one good face,
one absent triangulation and one vertex-loop failure discharges the range
hypothesis and the clean condition, and both invariants hold there. -/
theorem claim_c1_witness :
    (∀ o ∈ c1WitnessFaces, rangeOKo o = true) ∧ (∀ o ∈ c1WitnessFaces, cleanOKo o = true) ∧
      ((∀ t ∈ (extract_mesh_data c1WitnessFaces).2.1,
          idxOK t (extract_mesh_data c1WitnessFaces).1.length) ∧
        sumTriCounts (extract_mesh_data c1WitnessFaces).2.2 =
          (extract_mesh_data c1WitnessFaces).2.1.length) :=
  ⟨by decide, by decide,
    ⟨(claim_c1_amended c1WitnessFaces (by decide)).1,
     (claim_c1_amended c1WitnessFaces (by decide)).2 (by decide)⟩⟩

/-- Claim C4 (counterexample): a face with one readable node and zero
triangles is NOT dropped: it lands in the faces table as face 0 with one
vertex and zero triangles. -/
theorem claim_c4_counterexample :
    ((extract_mesh_data [some faceC4]).2.2).map
        (fun f => (f.faceIndex, f.vertexCount, f.triangleCount)) = [(0, 1, 0)] := by
  decide

/-- Claim C4 (amended): a face whose vertex loop completes and whose
triangulation holds zero triangles is extracted without error and KEPT in the
faces table, at its topological position with a triangle count of zero,
wherever it sits among the other faces. -/
theorem claim_c4_amended (pre post : List (Option FaceTri)) (ft : FaceTri)
    (h1 : (extractVerts ft.transform ft.nodes).2 = true) (h2 : ft.tris = []) :
    (pre.length, 0) ∈ ((extract_mesh_data (pre ++ some ft :: post)).2.2).map
      (fun f => (f.faceIndex, f.triangleCount)) := by
  have hpairs := extractLoop_pairs (pre ++ some ft :: post) 0 0 [] [] []
  have hdef : (extract_mesh_data (pre ++ some ft :: post)).2.2 =
      (extractLoop (pre ++ some ft :: post) 0 0 [] [] []).2.2 := rfl
  rw [hdef, hpairs]
  simp only [List.map_nil, List.nil_append]
  rw [okPairs_append]
  refine List.mem_append_right _ ?_
  simp only [Nat.zero_add]
  simp [okPairs, h1, h2, extractTris]

/-- Concrete instantiation of `claim_c4_amended`: the zero-triangle face after
one skipped face appears as face 1 with triangle count 0. -/
theorem claim_c4_witness :
    (extractVerts faceC4.transform faceC4.nodes).2 = true ∧ faceC4.tris = [] ∧
      ((1 : ℕ), (0 : ℕ)) ∈ ((extract_mesh_data [none, some faceC4]).2.2).map
        (fun f => (f.faceIndex, f.triangleCount)) :=
  ⟨by decide, rfl, claim_c4_amended [none] [] faceC4 (by decide) rfl⟩

/-- Claim C5 (counterexample): a face reporting the out-of-range node indices
2 and 3 against a single node raises nothing: the face is fully processed and
kept as face 0, and the out-of-range global indices 1 and 2 survive in the
global index list although only one global vertex exists. -/
theorem claim_c5_counterexample :
    ((extract_mesh_data [some faceC5]).2.2).map FaceInfo.faceIndex = [0] ∧
      (extract_mesh_data [some faceC5]).2.1 = [((0 : ℤ), (1 : ℤ), (2 : ℤ))] ∧
      (extract_mesh_data [some faceC5]).1.length = 1 := by
  refine ⟨by decide, by decide, by decide⟩

/-- Claim C5 (amended): the faces table holds exactly the faces whose vertex
and triangle reads complete, numbered by topological position and carrying
their triangle counts — membership never depends on the node index values, so
no range validation exists and out-of-range references are kept silently;
a face is skipped (with the others continuing) only when a read raises. -/
theorem claim_c5_amended (faces : List (Option FaceTri)) :
    ((extract_mesh_data faces).2.2).map (fun f => (f.faceIndex, f.triangleCount)) =
      okPairs faces 0 := by
  have h := extractLoop_pairs faces 0 0 [] [] []
  simpa [extract_mesh_data] using h

/-- Claim C7 (counterexample): a face with two nodes whose single triangle
references only node 1 still stores BOTH nodes in its local vertex list — the
unreferenced node ⟨5,5,5⟩ included — while the spec's first-encounter
deduplicating walk would store only the referenced node. -/
theorem claim_c7_counterexample :
    ((extract_mesh_data [some faceC7]).2.2).map FaceInfo.vertices =
        [[⟨0, 0, 0⟩, ⟨5, 5, 5⟩]] ∧
      localVertices_spec (fun v => v) faceC7.nodes [(1, 1, 1)] = [⟨0, 0, 0⟩] := by
  refine ⟨by decide, by decide⟩

/-- Claim C7 (amended): the vertex loop copies the face's ENTIRE node array in
node order — one entry per node index, each transformed by the face's rigid
transform — independently of which nodes the triangles reference; no
deduplication or reference filtering happens. -/
theorem claim_c7_amended (tf : Vec3 → Vec3) (ns : List (Option Vec3))
    (h : (extractVerts tf ns).2 = true) :
    (extractVerts tf ns).1.length = ns.length ∧
      ∀ j, j < ns.length →
        some ((extractVerts tf ns).1.getD j vzero) = (ns.getD j none).map tf :=
  ⟨extractVerts_complete_length h, extractVerts_complete_getD h⟩

/-- Concrete instantiation of `claim_c7_amended` on a two-node face. -/
theorem claim_c7_witness :
    (extractVerts (fun v => v) [some ⟨1, 2, 3⟩, some ⟨4, 5, 6⟩]).2 = true ∧
      ((extractVerts (fun v => v) [some ⟨1, 2, 3⟩, some ⟨4, 5, 6⟩]).1.length =
          ([some ⟨1, 2, 3⟩, some ⟨4, 5, 6⟩] : List (Option Vec3)).length ∧
        ∀ j, j < ([some ⟨1, 2, 3⟩, some ⟨4, 5, 6⟩] : List (Option Vec3)).length →
          some ((extractVerts (fun v => v) [some ⟨1, 2, 3⟩, some ⟨4, 5, 6⟩]).1.getD j vzero) =
            (([some ⟨1, 2, 3⟩, some ⟨4, 5, 6⟩] : List (Option Vec3)).getD j none).map
              fun v => v) :=
  ⟨by decide, claim_c7_amended (fun v => v) [some ⟨1, 2, 3⟩, some ⟨4, 5, 6⟩] (by decide)⟩

/-- Claim C8: `calculate_normals` equals its declarative description — every
vertex slot holds the finalized (unit-normalized, or [0,0,1] when zero) sum of
the incident triangles' unit normals, degenerate triangles contributing
nothing — and on the single triangle (0,0,0), (1,0,0), (0,1,0) **all** three
vertex normals are exactly (0,0,1). -/
theorem claim_c8 :
    (∀ (vertices : List Vec3) (triangles : List (ℕ × ℕ × ℕ)),
        calculate_normals vertices triangles =
          (List.range vertices.length).map fun i =>
            finalizeNormal (accumSpec vertices triangles i)) ∧
      calculate_normals [⟨0, 0, 0⟩, ⟨1, 0, 0⟩, ⟨0, 1, 0⟩] [(0, 1, 2)] =
        [⟨0, 0, 1⟩, ⟨0, 0, 1⟩, ⟨0, 0, 1⟩] := by
  refine ⟨calculate_normals_eq, ?_⟩
  norm_num [calculate_normals, accumLoop, triFaceNormal, addToIdx, finalizeNormal, vsub,
    cross, normSq, vadd, vdiv, vzero, rsqrt_one]

/-- Claim C9 (counterexample): in the run [good face A, face failing mid
vertex loop after one orphan append, good face C], faces A and C are both
successfully extracted and share the point (1,0,0), yet NO slot inside C's
recorded vertex index range holds that point — the stale `vertex_count`
shifted C's recorded range onto the orphan vertex — so the shared point does
not occupy a coincident-but-distinct entry inside each face's own range. -/
theorem claim_c9_counterexample :
    (extract_mesh_data c9BadFaces).2.2.length = 2 ∧
      (⟨1, 0, 0⟩ : Vec3) ∈ (((extract_mesh_data c9BadFaces).2.2).getD 0 fiDefault).vertices ∧
      (⟨1, 0, 0⟩ : Vec3) ∈ (((extract_mesh_data c9BadFaces).2.2).getD 1 fiDefault).vertices ∧
      ∀ b ∈ (((extract_mesh_data c9BadFaces).2.2).getD 1 fiDefault).vertexIndices,
        (extract_mesh_data c9BadFaces).1.getD b vzero ≠ ⟨1, 0, 0⟩ := by
  refine ⟨by decide, by decide, by decide, by decide⟩

/-- Claim C9 (amended): the recorded global vertex index ranges of any two
table faces are pairwise disjoint in EVERY run; and in runs free of per-face
extraction failures each face's range additionally holds exactly its own
transformed vertices (vertices are never deduplicated across faces), so a
point occurring in two distinct faces' vertex lists occupies two DISTINCT
global slots, one inside each face's own range. In runs with a mid-face
failure the recorded ranges can misalign with the stored coordinates. -/
theorem claim_c9_amended :
    (∀ faces : List (Option FaceTri),
        (extract_mesh_data faces).2.2.Pairwise vertDisjoint) ∧
      ∀ faces : List (Option FaceTri), allOk faces →
        (∀ info ∈ (extract_mesh_data faces).2.2,
          alignedIn (extract_mesh_data faces).1 info) ∧
        ∀ i j : ℕ, ∀ hi : i < (extract_mesh_data faces).2.2.length,
          ∀ hj : j < (extract_mesh_data faces).2.2.length, i ≠ j →
            ∀ p : Vec3, p ∈ ((extract_mesh_data faces).2.2.get ⟨i, hi⟩).vertices →
              p ∈ ((extract_mesh_data faces).2.2.get ⟨j, hj⟩).vertices →
              ∃ a b : ℕ, a ≠ b ∧
                a ∈ ((extract_mesh_data faces).2.2.get ⟨i, hi⟩).vertexIndices ∧
                b ∈ ((extract_mesh_data faces).2.2.get ⟨j, hj⟩).vertexIndices ∧
                (extract_mesh_data faces).1.getD a vzero = p ∧
                (extract_mesh_data faces).1.getD b vzero = p := by
  constructor
  · intro faces
    exact extractLoop_disjoint faces 0 0 [] [] [] List.Pairwise.nil (by simp)
  intro faces h
  have hA : ∀ o ∈ faces, (faceOkB o || o.isNone) = true := h
  have hpw : (extract_mesh_data faces).2.2.Pairwise vertDisjoint :=
    extractLoop_disjoint faces 0 0 [] [] [] List.Pairwise.nil (by simp)
  have hal : ∀ info ∈ (extract_mesh_data faces).2.2,
      alignedIn (extract_mesh_data faces).1 info :=
    extractLoop_align faces hA 0 0 [] [] [] rfl (by simp)
  refine ⟨hal, ?_⟩
  have hfind : ∀ k, ∀ hk : k < (extract_mesh_data faces).2.2.length, ∀ p : Vec3,
      p ∈ ((extract_mesh_data faces).2.2.get ⟨k, hk⟩).vertices →
      ∃ a, a ∈ ((extract_mesh_data faces).2.2.get ⟨k, hk⟩).vertexIndices ∧
        (extract_mesh_data faces).1.getD a vzero = p := by
    intro k hk p hp
    obtain ⟨hle, hvi, hget⟩ := hal _ (List.get_mem _ _ hk)
    obtain ⟨n, hn, hpn⟩ := List.mem_iff_getElem.mp hp
    refine ⟨((extract_mesh_data faces).2.2.get ⟨k, hk⟩).startVertexIndex + n, ?_, ?_⟩
    · rw [hvi]
      exact List.mem_range'.mpr ⟨n, hn, by omega⟩
    · rw [hget n hn, List.getD_eq_getElem _ _ hn, hpn]
  intro i j hi hj hij p hpi hpj
  obtain ⟨a, hai, hap⟩ := hfind i hi p hpi
  obtain ⟨b, hbj, hbp⟩ := hfind j hj p hpj
  refine ⟨a, b, ?_, hai, hbj, hap, hbp⟩
  rcases Nat.lt_or_ge i j with hlt | hge
  · have hd := List.pairwise_iff_getElem.mp hpw i j hi hj hlt
    exact hd a (by simpa using hai) b (by simpa using hbj)
  · have hlt' : j < i := lt_of_le_of_ne hge (Ne.symm hij)
    have hd := List.pairwise_iff_getElem.mp hpw j i hj hi hlt'
    exact Ne.symm (hd b (by simpa using hbj) a (by simpa using hai))

/-- Concrete instantiation of `claim_c9_amended`'s conditional part: two
adjacent faces sharing the point (1,0,0) form a failure-free run, and every
table entry's recorded range holds exactly its own vertices there. -/
theorem claim_c9_witness :
    allOk c9Faces ∧
      ∀ info ∈ (extract_mesh_data c9Faces).2.2,
        alignedIn (extract_mesh_data c9Faces).1 info :=
  ⟨by decide, (claim_c9_amended.2 c9Faces (by decide)).1⟩
